import Mathlib

/-!
Verification of the cropper repository (src/cropper.py, src/video_cropper.py).

The development shallowly embeds the core of the two Python modules:

* `CropBox.itemChange` — the position clamp run on every proposed move of the
  crop rectangle (identical in both files).  Qt positions are `QPointF`
  (real-valued); we model coordinates as rationals `ℚ`.
* the commit step of `ImageCropper.overwrite_image` and
  `VideoCropper.overwrite_video` — `int()`-truncation of the rectangle
  position and construction of the crop plan and crop box.
* `VideoCropper.overwrite_video` — the ffmpeg argument list, the temporary
  output file, and the move/remove protocol, over an explicit file-system
  state (an association list from path to content).
* `ImageCropper.overwrite_image` — open/crop/save over the same kind of
  file-system state, with the save step's success made explicit.
* `VideoCropper.get_next_file` — directory listing, extension filter, sort and
  successor lookup, together with models of the `os.path` helpers it uses
  (`splitext`, `dirname`, `basename`, `join`).

Definitions come first, theorems after.
-/

namespace Cropper

/-! # Definitions -/

/-! ## CropBox.itemChange (cropper.py lines 36-63, video_cropper.py lines 39-62)

The model covers the `ItemPositionChange` branch: the proposed position
`(px, py)` is clamped against the image rectangle `(imageW, imageH)` given the
crop rectangle size `(rectW, rectH)`. -/

/-- Model of `CropBox.itemChange` on an `ItemPositionChange`: lower-bound each
coordinate at 0, then pull it back so the far edge does not pass the image
edge.  Mirrors the four `if` statements of the source. -/
def itemChange (imageW imageH rectW rectH px py : ℚ) : ℚ × ℚ :=
  let proposed_x := px
  let proposed_y := py
  let proposed_x := if proposed_x < 0 then 0 else proposed_x
  let proposed_y := if proposed_y < 0 then 0 else proposed_y
  let proposed_x := if proposed_x + rectW > imageW then imageW - rectW else proposed_x
  let proposed_y := if proposed_y + rectH > imageH then imageH - rectH else proposed_y
  (proposed_x, proposed_y)

/-- Per-axis clamp: the computation `itemChange` performs on each coordinate. -/
def clampAxis (limit size p : ℚ) : ℚ :=
  let p1 := if p < 0 then 0 else p
  if p1 + size > limit then limit - size else p1

/-! ## Commit: from clamped position to CropPlan

Both executors read the crop item's position, truncate each coordinate with
Python's `int()` (`x = int(pos.x())`, cropper.py lines 202-204,
video_cropper.py lines 241-243) and take `(w, h)` from `current_crop_size`.
The image executor then builds the PIL box tuple `(x, y, x + w, y + h)`
(cropper.py line 213). -/

/-- Model of Python's `int()` on a rational: truncating division of the
numerator by the denominator (rounds toward zero). -/
def pyInt (q : ℚ) : ℤ :=
  q.num.tdiv q.den

/-- CropPlan: the committed crop origin and size, in integer pixels. -/
structure CropPlan where
  x : ℤ
  y : ℤ
  width : ℤ
  height : ℤ
  deriving DecidableEq, Repr

/-- Model of the commit step: truncate the crop item's position with `int()`
and copy `(width, height)` from the currently selected preset. -/
def commit (posx posy : ℚ) (preset : ℤ × ℤ) : CropPlan :=
  { x := pyInt posx, y := pyInt posy, width := preset.1, height := preset.2 }

/-- PIL box tuple `(left, upper, right, lower)` built from the plan
(cropper.py line 213: `crop_box = (x, y, x + w, y + h)`). -/
def crop_box (x y w h : ℤ) : ℤ × ℤ × ℤ × ℤ :=
  (x, y, x + w, y + h)

/-! ## The ffmpeg invocation (video_cropper.py lines 252-262) -/

/-- Model of the argument list built in `overwrite_video`:
`["ffmpeg", "-y", "-i", video_path, "-vf", f"crop={w}:{h}:{x}:{y}",
"-c:a", "copy", temp_output]`. -/
def cmd (video_path temp_output : String) (x y w h : ℤ) : List String :=
  ["ffmpeg", "-y", "-i", video_path, "-vf",
    "crop=" ++ toString w ++ ":" ++ toString h ++ ":" ++ toString x ++ ":"
      ++ toString y,
    "-c:a", "copy", temp_output]

/-- Spec wording of the required invocation:
`<tool> -y -i <input> -vf crop=<w>:<h>:<x>:<y> -c:a copy <temp_output>`, the
crop filter parameters ordered width, height, x-offset, y-offset, taken
verbatim from the plan. -/
def specCmd (input temp_output : String) (plan : CropPlan) : List String :=
  ["ffmpeg", "-y", "-i", input, "-vf",
    "crop=" ++ toString plan.width ++ ":" ++ toString plan.height ++ ":"
      ++ toString plan.x ++ ":" ++ toString plan.y,
    "-c:a", "copy", temp_output]

/-! ## File-system model -/

/-- File-system state: an association list from path to file content (bytes
modelled as a string).  The first binding for a path is its content. -/
abbrev FS := List (String × String)

/-- Content stored at path `p`, if any. -/
def fsLookup (fs : FS) (p : String) : Option String :=
  (List.find? (fun e => e.1 == p) fs).map (fun e => e.2)

/-- Write content `c` at path `p` (newest binding shadows older ones). -/
def fsWrite (fs : FS) (p c : String) : FS :=
  (p, c) :: fs

/-- Model of `os.remove(p)`: drop every binding for `p`. -/
def fsRemove (fs : FS) (p : String) : FS :=
  List.filter (fun e => e.1 != p) fs

/-- Model of `os.path.exists(p)` restricted to the files of the state. -/
def fsExists (fs : FS) (p : String) : Bool :=
  (fsLookup fs p).isSome

/-- Model of `shutil.move(src, dst)` for a destination on the same file
system (here: same directory): a rename — `dst` receives `src`'s content in
one step and `src` is removed.  When `src` does not exist the Python call
raises and the caller's `except` branch performs no further file operation,
so the model leaves the state unchanged. -/
def shutil_move (fs : FS) (src dst : String) : FS :=
  match fsLookup fs src with
  | some c => fsRemove (fsWrite fs dst c) src
  | none => fs

/-! ## VideoCropper.overwrite_video (video_cropper.py lines 240-310) -/

/-- Result of running the external ffmpeg process: its exit code, its captured
standard-error text, and the content it deposited at the temporary output path
(`none` when it produced no output file). -/
structure FfmpegRun where
  returncode : ℤ
  stderr : String
  tempContent : Option String

/-- Outcome surfaced to the operator by `overwrite_video`. -/
inductive VideoOutcome where
  | success : VideoOutcome
  | toolFailure : String → VideoOutcome
  deriving DecidableEq, Repr

/-- Temporary output path built in `overwrite_video` (video_cropper.py line
247): `temp_output = self.video_path + "_temp_crop.mp4"`. -/
def temp_output (video_path : String) : String :=
  video_path ++ "_temp_crop.mp4"

/-- Model of the effectful part of `VideoCropper.overwrite_video` (lines
275-306): the ffmpeg process deposits its output at the temporary path; on
exit code 0 `shutil.move` renames the temporary file over the original; on a
non-zero exit the error dialog shows `f"Error:\n{result.stderr}"` and the
temporary file is removed if it exists. -/
def overwrite_video (fs : FS) (video_path : String) (run : FfmpegRun) :
    FS × VideoOutcome :=
  let temp := temp_output video_path
  let fs1 : FS := match run.tempContent with
    | some c => fsWrite fs temp c
    | none => fs
  if run.returncode = 0 then
    (shutil_move fs1 temp video_path, VideoOutcome.success)
  else
    let fs2 := if fsExists fs1 temp then fsRemove fs1 temp else fs1
    (fs2, VideoOutcome.toolFailure ("Error:\n" ++ run.stderr))

/-! ## Models of the os.path helpers (POSIX) -/

/-- Model of `os.path.basename`: the characters after the last `'/'`. -/
def basename (p : String) : String :=
  ⟨(p.data.reverse.takeWhile (fun c => c != '/')).reverse⟩

/-- Prefix of `p` up to and including its last `'/'` (CPython
`p[: p.rfind('/') + 1]`); empty when `p` has no slash. -/
def headPart (l : List Char) : List Char :=
  (l.reverse.dropWhile (fun c => c != '/')).reverse

/-- Second half of `os.path.dirname`: strip trailing slashes from the head
unless it consists only of slashes. -/
def dirnameOfHead (head : List Char) : String :=
  if head ≠ [] ∧ head.any (fun c => c != '/') then
    ⟨(head.reverse.dropWhile (fun c => c == '/')).reverse⟩
  else ⟨head⟩

/-- Model of `os.path.dirname` (POSIX): the prefix up to the last slash, with
trailing slashes stripped unless the prefix is entirely slashes. -/
def dirname (p : String) : String :=
  dirnameOfHead (headPart p.data)

/-- Model of `os.path.join(a, b)` (POSIX, one right operand). -/
def pjoin (a b : String) : String :=
  if b.data.head? = some '/' then b
  else if a = "" ∨ a.data.getLast? = some '/' then a ++ b
  else a ++ "/" ++ b

/-- Extension rule of `os.path.splitext` on a single path component `b`:
empty when `b` has no dot or when every character before its last dot is
itself a dot; otherwise the suffix of `b` from the last dot on. -/
def splitext_ext_chars (b : List Char) : List Char :=
  match b.reverse.dropWhile (fun c => c != '.') with
  | [] => []
  | _ :: rest =>
    if rest.any (fun c => c != '.') then
      '.' :: (b.reverse.takeWhile (fun c => c != '.')).reverse
    else []

/-- Model of `os.path.splitext(p)[1]`: CPython computes the extension from the
portion of `p` after the last separator, so the single-component rule is
applied to `basename p`. -/
def splitext_ext (p : String) : String :=
  ⟨splitext_ext_chars (basename p).data⟩

/-- Model of `str.lower()` (the ASCII case mapping of `Char.toLower`
coincides with Python's on the extension strings compared here). -/
def lowerStr (s : String) : String :=
  ⟨s.data.map Char.toLower⟩

/-- Spec wording of the temporary-file name of C4: `<path>_temp_crop.<ext>`
where `<ext>` is the input path's own extension. -/
def temp_output_claimed (video_path : String) : String :=
  video_path ++ "_temp_crop" ++ splitext_ext video_path

/-! ## VideoCropper.get_next_file (video_cropper.py lines 188-211) -/

/-- Lexicographic order on strings by code points — the order Python's string
comparison uses — phrased on the underlying character lists so that it is
kernel-computable. -/
def strLe (a b : String) : Prop :=
  a.data ≤ b.data

instance : DecidableRel strLe :=
  fun a b => inferInstanceAs (Decidable (a.data ≤ b.data))

instance : IsTrans String strLe :=
  ⟨fun _ _ _ hab hbc => le_trans hab hbc⟩

instance : IsTotal String strLe :=
  ⟨fun a b => le_total a.data b.data⟩

instance : IsAntisymm String strLe :=
  ⟨fun a b hab hba => by
    cases a with
    | mk d =>
      cases b with
      | mk e =>
        have hde : d = e := le_antisymm hab hba
        rw [hde]⟩

/-- Model of Python's `sorted` on the directory listing: a sort by the
lexicographic order (the output of any correct sort by a total antisymmetric
order is the same list). -/
def pySorted (l : List String) : List String :=
  List.insertionSort strLe l

/-- Supported video extensions (video_cropper.py line 194). -/
def extensions : List String :=
  [".mp4", ".mkv", ".avi", ".mov", ".webm"]

/-- Extension filter of `get_next_file`:
`os.path.splitext(f)[1].lower() in extensions`. -/
def isVideoFile (f : String) : Bool :=
  extensions.contains (lowerStr (splitext_ext f))

/-- Model of `VideoCropper.get_next_file`.  The directory listing
`os.listdir(directory)` is an external effect: `none` models the `OSError`
branch, `some entries` a successful listing.  The source guards on a falsy
`video_path`, sorts the listing, keeps the entries with a supported
extension, locates the current file name, and returns the entry after it,
joined to the directory. -/
def get_next_file (listing : Option (List String)) (video_path : String) :
    Option String :=
  if video_path = "" then none
  else
    let directory := dirname video_path
    let filename := basename video_path
    match listing with
    | none => none
    | some entries =>
      let files := (pySorted entries).filter isVideoFile
      if filename ∈ files then
        let current_index := files.indexOf filename
        if h : current_index + 1 < files.length then
          some (pjoin directory (files.get ⟨current_index + 1, h⟩))
        else none
      else none

/-- Spec wording of `next_sibling` (C7): keep the listing entries whose
case-insensitive extension is in the supported set, sort the kept names
lexicographically, find the current file's name in the sorted list, and
return the full path of the immediately following entry; nothing when the
current file is last, absent from the listing, or the listing failed. -/
def next_sibling (listing : Option (List String)) (video_path : String) :
    Option String :=
  match listing with
  | none => none
  | some entries =>
    let kept := entries.filter isVideoFile
    let sorted := pySorted kept
    if basename video_path ∈ sorted then
      let i := sorted.indexOf (basename video_path)
      if h : i + 1 < sorted.length then
        some (pjoin (dirname video_path) (sorted.get ⟨i + 1, h⟩))
      else none
    else none

/-! ## ImageCropper.overwrite_image (cropper.py lines 189-221) -/

/-- A decoded raster image: a rectangle of pixel values. -/
structure Image where
  rows : List (List ℕ)
  deriving DecidableEq, Repr

/-- Pixel height. -/
def Image.height (img : Image) : ℕ :=
  img.rows.length

/-- Pixel width (of the first row; rectangular images have equal rows). -/
def Image.width (img : Image) : ℕ :=
  (img.rows.head?.getD []).length

/-- Pixel at integer coordinates; 0 outside the image (PIL fills the part of
a crop box that lies outside the source with zero pixels). -/
def Image.px (img : Image) (cx cy : ℤ) : ℕ :=
  if 0 ≤ cy ∧ cy < (img.height : ℤ) ∧ 0 ≤ cx ∧ cx < (img.width : ℤ) then
    (img.rows.getD cy.toNat []).getD cx.toNat 0
  else 0

/-- Model of `PIL.Image.crop` with box `(left, upper, right, lower)`: the
result is `(right - left) × (lower - upper)` pixels (empty for an inverted
box) and its pixel `(i, j)` is the source pixel `(left + i, upper + j)`. -/
def pilCrop (img : Image) (left upper right lower : ℤ) : Image :=
  { rows := (List.range (lower - upper).toNat).map (fun j =>
      (List.range (right - left).toNat).map (fun i =>
        img.px (left + (i : ℤ)) (upper + (j : ℤ)))) }

/-- Image store: each path holds either a decodable image (`some img`) or
undecodable bytes (`none`). -/
abbrev ImgFS := List (String × Option Image)

/-- Stored value at `p`: `none` when no file exists there. -/
def imgLookup (fs : ImgFS) (p : String) : Option (Option Image) :=
  (List.find? (fun e => e.1 == p) fs).map (fun e => e.2)

/-- Write a decoded image at `p`. -/
def imgWrite (fs : ImgFS) (p : String) (v : Option Image) : ImgFS :=
  (p, v) :: fs

/-- Outcome surfaced to the operator by `overwrite_image`. -/
inductive ImageOutcome where
  | success : ImageOutcome
  | failure : String → ImageOutcome
  deriving DecidableEq, Repr

/-- Error text of the `except` branch:
`f"Failed to save image: {str(e)}"`. -/
def saveErrorMsg (e : String) : String :=
  "Failed to save image: " ++ e

/-- Model of the try-block of `ImageCropper.overwrite_image` (lines 209-221)
after the operator confirms.  `Image.open` raises when the path has no file or
its bytes do not decode; `img.crop` is total; `save` is the only operation
that writes, and as an I/O action it may itself fail — `saveFails` injects
that failure, whose exception reaches the `except` handler before any change
to the stored content (the write is the atomic last step).  Every exception
is caught and shown in a dialog; none is re-raised. -/
def overwrite_image (fs : ImgFS) (image_path : String) (x y w h : ℤ)
    (saveFails : Bool) : ImgFS × ImageOutcome :=
  match imgLookup fs image_path with
  | none => (fs, ImageOutcome.failure (saveErrorMsg "cannot open"))
  | some none => (fs, ImageOutcome.failure (saveErrorMsg "cannot identify image"))
  | some (some img) =>
    let cropped := pilCrop img x y (x + w) (y + h)
    if saveFails then (fs, ImageOutcome.failure (saveErrorMsg "write error"))
    else (imgWrite fs image_path (some cropped), ImageOutcome.success)

/-! # Theorems -/

/-! ## The clamp (claims C1, C8, C9) -/

theorem itemChange_eq_clampAxis (imageW imageH rectW rectH px py : ℚ) :
    itemChange imageW imageH rectW rectH px py =
      (clampAxis imageW rectW px, clampAxis imageH rectH py) := rfl

theorem clampAxis_nonneg (limit size p : ℚ) (h : size ≤ limit) :
    0 ≤ clampAxis limit size p := by
  unfold clampAxis
  dsimp only
  split_ifs with h1 h2 h3 <;> linarith

theorem clampAxis_le (limit size p : ℚ) :
    clampAxis limit size p ≤ limit - size := by
  unfold clampAxis
  dsimp only
  split_ifs with h1 h2 h3 <;> linarith

/-- C1: for every surface `(W,H)` and region `(w,h)` with `w ≤ W` and `h ≤ H`,
and every proposed position `(px,py)`, the clamp of `CropBox.itemChange`
returns `(x,y)` with `0 ≤ x ≤ W - w` and `0 ≤ y ≤ H - h`, and the result is
exactly the two-step algorithm (lower bound at 0 first, then pull back from
the far edge) applied per axis. -/
theorem itemChange_in_bounds (W H w h px py : ℚ) (hw : w ≤ W) (hh : h ≤ H) :
    0 ≤ (itemChange W H w h px py).1 ∧ (itemChange W H w h px py).1 ≤ W - w ∧
    0 ≤ (itemChange W H w h px py).2 ∧ (itemChange W H w h px py).2 ≤ H - h ∧
    itemChange W H w h px py =
      ((if max px 0 + w > W then W - w else max px 0),
       (if max py 0 + h > H then H - h else max py 0)) := by
  rw [itemChange_eq_clampAxis]
  refine ⟨clampAxis_nonneg W w px hw, clampAxis_le W w px,
    clampAxis_nonneg H h py hh, clampAxis_le H h py, ?_⟩
  unfold clampAxis
  have hx : (if px < 0 then (0:ℚ) else px) = max px 0 := by
    rcases le_or_lt 0 px with hp | hp
    · rw [if_neg (not_lt.mpr hp), max_eq_left hp]
    · rw [if_pos hp, max_eq_right hp.le]
  have hy : (if py < 0 then (0:ℚ) else py) = max py 0 := by
    rcases le_or_lt 0 py with hp | hp
    · rw [if_neg (not_lt.mpr hp), max_eq_left hp]
    · rw [if_pos hp, max_eq_right hp.le]
  dsimp only
  rw [hx, hy]

/-- C1 witness: surface 1000×800, region 512×512, proposed position (-35, 9000). -/
theorem itemChange_in_bounds_witness :
    (512:ℚ) ≤ 1000 ∧ (512:ℚ) ≤ 800 ∧
    (0 ≤ (itemChange 1000 800 512 512 (-35) 9000).1 ∧
     (itemChange 1000 800 512 512 (-35) 9000).1 ≤ 1000 - 512 ∧
     0 ≤ (itemChange 1000 800 512 512 (-35) 9000).2 ∧
     (itemChange 1000 800 512 512 (-35) 9000).2 ≤ 800 - 512 ∧
     itemChange 1000 800 512 512 (-35) 9000 =
       ((if max (-35:ℚ) 0 + 512 > 1000 then 1000 - 512 else max (-35:ℚ) 0),
        (if max (9000:ℚ) 0 + 512 > 800 then 800 - 512 else max (9000:ℚ) 0))) :=
  ⟨by norm_num, by norm_num,
    itemChange_in_bounds 1000 800 512 512 (-35) 9000 (by norm_num) (by norm_num)⟩

theorem clampAxis_valid_fixed (limit size p : ℚ) (h0 : 0 ≤ p)
    (h1 : p ≤ limit - size) : clampAxis limit size p = p := by
  unfold clampAxis
  dsimp only
  rw [if_neg (not_lt.mpr h0), if_neg (by push_neg; linarith)]

theorem clampAxis_idem (limit size p : ℚ) :
    clampAxis limit size (clampAxis limit size p) = clampAxis limit size p := by
  unfold clampAxis
  dsimp only
  split_ifs with h1 h2 h3 h4 h5 h6 h7 <;> linarith

/-- C8: an already-valid position (`0 ≤ x ≤ W - w`, `0 ≤ y ≤ H - h`) is a fixed
point of the clamp, and the clamp is idempotent for every proposed position. -/
theorem itemChange_fixed_and_idem (W H w h x y : ℚ)
    (hx0 : 0 ≤ x) (hx1 : x ≤ W - w) (hy0 : 0 ≤ y) (hy1 : y ≤ H - h) :
    itemChange W H w h x y = (x, y) ∧
    ∀ px py : ℚ,
      itemChange W H w h (itemChange W H w h px py).1 (itemChange W H w h px py).2 =
        itemChange W H w h px py := by
  constructor
  · rw [itemChange_eq_clampAxis, clampAxis_valid_fixed W w x hx0 hx1,
      clampAxis_valid_fixed H h y hy0 hy1]
  · intro px py
    rw [itemChange_eq_clampAxis, itemChange_eq_clampAxis,
      clampAxis_idem, clampAxis_idem]

/-- C8 witness: the valid position (100, 50) on a 1000×800 surface with a
512×512 region is returned unchanged. -/
theorem itemChange_fixed_and_idem_witness :
    ((0:ℚ) ≤ 100 ∧ (100:ℚ) ≤ 1000 - 512 ∧ (0:ℚ) ≤ 50 ∧ (50:ℚ) ≤ 800 - 512) ∧
    itemChange 1000 800 512 512 100 50 = (100, 50) :=
  ⟨⟨by norm_num, by norm_num, by norm_num, by norm_num⟩,
    (itemChange_fixed_and_idem 1000 800 512 512 100 50
      (by norm_num) (by norm_num) (by norm_num) (by norm_num)).1⟩

/-- C9: in the degenerate case where the region is wider than the surface, the
clamp returns `x = W - w` (a negative value) for every proposed position, and
symmetrically in `y` when the region is taller than the surface. -/
theorem itemChange_oversize (W H w h : ℚ) :
    (W < w → ∀ px py : ℚ,
      (itemChange W H w h px py).1 = W - w ∧ W - w < 0) ∧
    (H < h → ∀ px py : ℚ,
      (itemChange W H w h px py).2 = H - h ∧ H - h < 0) := by
  constructor
  · intro hwW px py
    rw [itemChange_eq_clampAxis]
    refine ⟨?_, by linarith⟩
    unfold clampAxis
    dsimp only
    have hp1 : 0 ≤ if px < 0 then (0:ℚ) else px := by
      split_ifs with h1
      · exact le_refl 0
      · exact not_lt.mp h1
    rw [if_pos (by linarith)]
  · intro hhH px py
    rw [itemChange_eq_clampAxis]
    refine ⟨?_, by linarith⟩
    unfold clampAxis
    dsimp only
    have hp1 : 0 ≤ if py < 0 then (0:ℚ) else py := by
      split_ifs with h1
      · exact le_refl 0
      · exact not_lt.mp h1
    rw [if_pos (by linarith)]

/-- C9 witness: a 512-wide region on a 300×200 surface is pinned at
`x = 300 - 512 = -212` for the proposed position (5, 7). -/
theorem itemChange_oversize_witness :
    (300:ℚ) < 512 ∧ (itemChange 300 200 512 512 5 7).1 = 300 - 512 ∧
      (300:ℚ) - 512 < 0 :=
  ⟨by norm_num, ((itemChange_oversize 300 200 512 512).1 (by norm_num) 5 7).1,
    ((itemChange_oversize 300 200 512 512).1 (by norm_num) 5 7).2⟩

/-! ## Commit (claim C5) -/

theorem pyInt_eq_trunc (q : ℚ) : pyInt q = if 0 ≤ q then ⌊q⌋ else ⌈q⌉ := by
  unfold pyInt
  split_ifs with h
  · rw [Rat.floor_def]
    exact Int.tdiv_eq_ediv (Rat.num_nonneg.mpr h) (Int.natCast_nonneg _)
  · have hq : ¬ (0 ≤ q.num) := fun hn => h (Rat.num_nonneg.mp hn)
    have key : (-q).num.tdiv (-q).den = ⌊-q⌋ := by
      rw [Rat.floor_def]
      exact Int.tdiv_eq_ediv
        (by rw [Rat.neg_num]; omega) (Int.natCast_nonneg _)
    have h1 : q.num.tdiv q.den = -((-q).num.tdiv (-q).den) := by
      rw [Rat.neg_num, Rat.neg_den, Int.neg_tdiv, neg_neg]
    rw [h1, key, Int.floor_neg, neg_neg]

/-- C5: committing after a clamp yields a plan whose `(x, y)` is the clamped
position truncated toward zero (floor for nonnegative values, ceiling for
negative ones), whose `(width, height)` is exactly the selected preset, and
whose crop rectangle is `(left = x, upper = y, right = x + width,
lower = y + height)`. -/
theorem commit_after_clamp (W H : ℚ) (pw ph : ℤ) (px py : ℚ) :
    let c := itemChange W H (pw : ℚ) (ph : ℚ) px py
    let plan := commit c.1 c.2 (pw, ph)
    plan.x = (if 0 ≤ c.1 then ⌊c.1⌋ else ⌈c.1⌉) ∧
    plan.y = (if 0 ≤ c.2 then ⌊c.2⌋ else ⌈c.2⌉) ∧
    plan.width = pw ∧ plan.height = ph ∧
    crop_box plan.x plan.y plan.width plan.height =
      (plan.x, plan.y, plan.x + pw, plan.y + ph) := by
  refine ⟨pyInt_eq_trunc _, pyInt_eq_trunc _, rfl, rfl, rfl⟩

/-! ## The ffmpeg argument list (claim C3) -/

/-- C3: the argument list built by `overwrite_video` for plan `{x,y,w,h}` is
exactly the spec's `<tool> -y -i p -vf crop=w:h:x:y -c:a copy t`; the audio
stream-copy flag `-c:a copy` is present, and the plan
`{x := 100, y := 50, width := 512, height := 512}` yields the literal
`crop=512:512:100:50`. -/
theorem cmd_matches_spec (p t : String) (plan : CropPlan) :
    cmd p t plan.x plan.y plan.width plan.height = specCmd p t plan ∧
    "-c:a" ∈ cmd p t plan.x plan.y plan.width plan.height ∧
    "copy" ∈ cmd p t plan.x plan.y plan.width plan.height ∧
    "crop=512:512:100:50" ∈ cmd p t 100 50 512 512 := by
  refine ⟨rfl, ?_, ?_, ?_⟩
  · simp [cmd]
  · simp [cmd]
  · have hcrop : "crop=" ++ toString (512:ℤ) ++ ":" ++ toString (512:ℤ) ++ ":"
        ++ toString (100:ℤ) ++ ":" ++ toString (50:ℤ) = "crop=512:512:100:50" := by
      decide
    simp [cmd, hcrop]

/-! ## File-system lemmas -/

theorem fsLookup_fsWrite_self (fs : FS) (p c : String) :
    fsLookup (fsWrite fs p c) p = some c := by
  simp [fsLookup, fsWrite, List.find?_cons]

theorem fsLookup_fsWrite_ne (fs : FS) (p c q : String) (h : q ≠ p) :
    fsLookup (fsWrite fs p c) q = fsLookup fs q := by
  unfold fsLookup fsWrite
  rw [List.find?_cons]
  have hpq : ((p, c).1 == q) = false := by
    simp only [beq_eq_false_iff_ne]
    exact fun hc => h hc.symm
  rw [hpq]

theorem fsLookup_fsRemove (fs : FS) (p q : String) :
    fsLookup (fsRemove fs p) q = if q = p then none else fsLookup fs q := by
  induction fs with
  | nil => by_cases h : q = p <;> simp [fsRemove, fsLookup, h]
  | cons e t ih =>
    unfold fsRemove at ih ⊢
    rw [List.filter_cons]
    by_cases hep : e.1 = p
    · rw [if_neg (by simp [hep])]
      rw [ih]
      by_cases hqp : q = p
      · simp [hqp]
      · rw [if_neg hqp, if_neg hqp]
        unfold fsLookup
        rw [List.find?_cons]
        have : (e.1 == q) = false := by
          simp only [beq_eq_false_iff_ne, hep]
          exact fun hc => hqp hc.symm
        rw [this]
    · rw [if_pos (by simp [hep])]
      unfold fsLookup
      rw [List.find?_cons, List.find?_cons]
      by_cases heq : e.1 = q
      · have hqp : ¬ q = p := by rw [← heq]; exact hep
        rw [if_neg hqp]
        have : (e.1 == q) = true := by simp [heq]
        rw [this]
      · have : (e.1 == q) = false := by simp [heq]
        rw [this]
        exact ih

theorem fsLookup_fsRemove_self (fs : FS) (p : String) :
    fsLookup (fsRemove fs p) p = none := by
  rw [fsLookup_fsRemove, if_pos rfl]

theorem fsLookup_fsRemove_ne (fs : FS) (p q : String) (h : q ≠ p) :
    fsLookup (fsRemove fs p) q = fsLookup fs q := by
  rw [fsLookup_fsRemove, if_neg h]

theorem append_ne_left (p s : String) (hs : s ≠ "") : p ++ s ≠ p := by
  intro h
  apply hs
  have hl := congrArg String.length h
  rw [String.length_append] at hl
  have h0 : s.length = 0 := by omega
  have hd : s.data = [] := List.length_eq_zero.mp h0
  cases s with
  | mk d =>
    simp only at hd
    rw [hd]

theorem temp_output_ne (video_path : String) :
    temp_output video_path ≠ video_path :=
  append_ne_left video_path "_temp_crop.mp4" (by decide)

/-! ## overwrite_video (claim C2) -/

/-- C2: on ffmpeg exit code 0 the temporary file's content ends up at the
original path and the temporary file is gone (the rename is the single
`shutil_move` step); on a non-zero exit the temporary file is absent, the
original path's content is exactly its pre-call content, and the dialog text
carries the tool's stderr verbatim. -/
theorem overwrite_video_atomic (fs : FS) (video_path : String)
    (run : FfmpegRun) (c : String) :
    (run.returncode = 0 → run.tempContent = some c →
      fsLookup (overwrite_video fs video_path run).1 video_path = some c ∧
      fsLookup (overwrite_video fs video_path run).1 (temp_output video_path) = none ∧
      (overwrite_video fs video_path run).2 = VideoOutcome.success) ∧
    (run.returncode ≠ 0 →
      fsLookup (overwrite_video fs video_path run).1 video_path = fsLookup fs video_path ∧
      fsLookup (overwrite_video fs video_path run).1 (temp_output video_path) = none ∧
      (overwrite_video fs video_path run).2 =
        VideoOutcome.toolFailure ("Error:\n" ++ run.stderr)) := by
  have hne : video_path ≠ temp_output video_path :=
    fun h => temp_output_ne video_path h.symm
  constructor
  · intro h0 htc
    unfold overwrite_video
    rw [htc, if_pos h0]
    dsimp only
    unfold shutil_move
    rw [fsLookup_fsWrite_self]
    refine ⟨?_, ?_, rfl⟩
    · rw [fsLookup_fsRemove_ne _ _ _ hne, fsLookup_fsWrite_self]
    · rw [fsLookup_fsRemove_self]
  · intro h0
    unfold overwrite_video
    rw [if_neg h0]
    dsimp only
    have hfs1 : ∀ fs1 : FS,
        fsLookup fs1 video_path = fsLookup fs video_path →
        fsLookup
          (if fsExists fs1 (temp_output video_path) then
            fsRemove fs1 (temp_output video_path) else fs1) video_path =
          fsLookup fs video_path ∧
        fsLookup
          (if fsExists fs1 (temp_output video_path) then
            fsRemove fs1 (temp_output video_path) else fs1)
          (temp_output video_path) = none := by
      intro fs1 hkeep
      by_cases he : fsExists fs1 (temp_output video_path)
      · rw [if_pos he]
        exact ⟨by rw [fsLookup_fsRemove_ne _ _ _ hne, hkeep],
          fsLookup_fsRemove_self _ _⟩
      · rw [if_neg he]
        refine ⟨hkeep, ?_⟩
        unfold fsExists at he
        exact Option.not_isSome_iff_eq_none.mp he
    cases htc : run.tempContent with
    | none =>
      have := hfs1 fs rfl
      exact ⟨this.1, this.2, rfl⟩
    | some c' =>
      have := hfs1 (fsWrite fs (temp_output video_path) c')
        (fsLookup_fsWrite_ne _ _ _ _ hne)
      exact ⟨this.1, this.2, rfl⟩

/-- C2 witness: with `v.mp4` holding `OLD`, an exit-0 run that wrote `NEW` to
the temporary file leaves `NEW` at `v.mp4` and no temporary file; an exit-1
run that wrote a partial file leaves `OLD` at `v.mp4`, no temporary file, and
surfaces the stderr text. -/
theorem overwrite_video_atomic_witness :
    ((fsLookup (overwrite_video [("v.mp4", "OLD")] "v.mp4"
        ⟨0, "", some "NEW"⟩).1 "v.mp4" = some "NEW" ∧
      fsLookup (overwrite_video [("v.mp4", "OLD")] "v.mp4"
        ⟨0, "", some "NEW"⟩).1 (temp_output "v.mp4") = none ∧
      (overwrite_video [("v.mp4", "OLD")] "v.mp4"
        ⟨0, "", some "NEW"⟩).2 = VideoOutcome.success) ∧
     (fsLookup (overwrite_video [("v.mp4", "OLD")] "v.mp4"
        ⟨1, "boom", some "PARTIAL"⟩).1 "v.mp4" = fsLookup [("v.mp4", "OLD")] "v.mp4" ∧
      fsLookup (overwrite_video [("v.mp4", "OLD")] "v.mp4"
        ⟨1, "boom", some "PARTIAL"⟩).1 (temp_output "v.mp4") = none ∧
      (overwrite_video [("v.mp4", "OLD")] "v.mp4"
        ⟨1, "boom", some "PARTIAL"⟩).2 =
          VideoOutcome.toolFailure ("Error:\n" ++ "boom"))) :=
  ⟨(overwrite_video_atomic [("v.mp4", "OLD")] "v.mp4"
      ⟨0, "", some "NEW"⟩ "NEW").1 rfl rfl,
   (overwrite_video_atomic [("v.mp4", "OLD")] "v.mp4"
      ⟨1, "boom", some "PARTIAL"⟩ "NEW").2 (by decide)⟩

/-! ## The temporary-file name (claim C4) -/

theorem headPart_append (p s : String) (hs : ∀ c ∈ s.data, (c != '/') = true) :
    headPart ((p ++ s).data) = headPart p.data := by
  unfold headPart
  rw [String.data_append, List.reverse_append, List.dropWhile_append]
  have h1 : s.data.reverse.dropWhile (fun c => c != '/') = [] :=
    List.dropWhile_eq_nil_iff.mpr
      (fun x hx => hs x (List.mem_reverse.mp hx))
  rw [h1]
  simp

/-- C4 counterexample: for the input path `"b.mkv"` the code builds the
temporary name `"b.mkv_temp_crop.mp4"`, not the claimed
`"b.mkv_temp_crop.mkv"` (`<path>_temp_crop.<ext>` with `<ext>` the input's
extension). -/
theorem temp_output_claim_false :
    temp_output "b.mkv" ≠ temp_output_claimed "b.mkv" := by
  decide

/-- C4 amended: the temporary output path is always `<path>_temp_crop.mp4`
(the `.mp4` suffix is fixed, whatever the input's extension); it lies in the
input's directory and never equals the input path itself. -/
theorem temp_output_shape (video_path : String) :
    temp_output video_path = video_path ++ "_temp_crop.mp4" ∧
    dirname (temp_output video_path) = dirname video_path ∧
    temp_output video_path ≠ video_path := by
  refine ⟨rfl, ?_, temp_output_ne video_path⟩
  unfold dirname temp_output
  rw [headPart_append video_path "_temp_crop.mp4" (by decide)]

/-! ## get_next_file (claims C7, C10) -/

theorem filter_pySorted_comm (p : String → Bool) (l : List String) :
    (pySorted l).filter p = pySorted (l.filter p) := by
  unfold pySorted
  apply List.eq_of_perm_of_sorted (r := strLe)
  · exact ((List.perm_insertionSort strLe l).filter p).trans
      (List.perm_insertionSort strLe (l.filter p)).symm
  · exact (List.sorted_insertionSort strLe l).filter p
  · exact List.sorted_insertionSort strLe (l.filter p)

theorem isVideoFile_empty_false : isVideoFile "" = false := by decide

/-- C7: `get_next_file` computes exactly the spec's `next_sibling` algorithm —
filter the listing to the supported extensions (case-insensitively), sort the
kept names lexicographically, locate the current file's name, and return the
full path of the immediately following entry, or nothing when the current
file is last, absent, or the listing failed. -/
theorem get_next_file_eq_next_sibling (listing : Option (List String))
    (video_path : String) :
    get_next_file listing video_path = next_sibling listing video_path := by
  by_cases hvp : video_path = ""
  · subst hvp
    unfold get_next_file next_sibling
    rw [if_pos rfl]
    cases listing with
    | none => rfl
    | some entries =>
      dsimp only
      have hnot : basename "" ∉ pySorted (entries.filter isVideoFile) := by
        intro hmem
        have h1 : basename "" ∈ entries.filter isVideoFile :=
          (List.perm_insertionSort strLe (entries.filter isVideoFile)).mem_iff.mp hmem
        have h2 := (List.mem_filter.mp h1).2
        rw [show basename "" = "" from rfl, isVideoFile_empty_false] at h2
        cases h2
      rw [if_neg hnot]
  · unfold get_next_file next_sibling
    rw [if_neg hvp]
    cases listing with
    | none => rfl
    | some entries =>
      dsimp only
      have key : ∀ l₁ l₂ : List String, l₁ = l₂ →
          (if basename video_path ∈ l₁ then
            if h : l₁.indexOf (basename video_path) + 1 < l₁.length then
              some (pjoin (dirname video_path)
                (l₁.get ⟨l₁.indexOf (basename video_path) + 1, h⟩))
            else none
          else none) =
          (if basename video_path ∈ l₂ then
            if h : l₂.indexOf (basename video_path) + 1 < l₂.length then
              some (pjoin (dirname video_path)
                (l₂.get ⟨l₂.indexOf (basename video_path) + 1, h⟩))
            else none
          else none) := by
        intro l₁ l₂ hl
        subst hl
        rfl
      exact key _ _ (filter_pySorted_comm isVideoFile entries)

theorem takeWhile_append_of_all (p : Char → Bool) (l₁ l₂ : List Char)
    (h : ∀ x ∈ l₁, p x = true) :
    List.takeWhile p (l₁ ++ l₂) = l₁ ++ List.takeWhile p l₂ := by
  rw [List.takeWhile_append]
  have h1 : List.takeWhile p l₁ = l₁ := List.takeWhile_eq_self_iff.mpr h
  rw [if_pos (by rw [h1])]

theorem basename_pjoin (a b : String) (hslash : '/' ∉ b.data) :
    basename (pjoin a b) = b := by
  have hball : ∀ x ∈ b.data.reverse, (x != '/') = true := by
    intro x hx
    rw [bne_iff_ne]
    exact fun hc => hslash (hc ▸ List.mem_reverse.mp hx)
  unfold pjoin
  have hh1 : ¬ b.data.head? = some '/' := by
    intro hh
    exact hslash (List.mem_of_mem_head? hh)
  rw [if_neg hh1]
  by_cases h2 : a = "" ∨ a.data.getLast? = some '/'
  · rw [if_pos h2]
    unfold basename
    rw [String.data_append, List.reverse_append,
      takeWhile_append_of_all _ _ _ hball]
    have hta : List.takeWhile (fun c => c != '/') a.data.reverse = [] := by
      rcases h2 with h2 | h2
      · subst h2
        rfl
      · have hrh : a.data.reverse.head? = some '/' := by
          rw [List.head?_reverse]
          exact h2
        cases hrev : a.data.reverse with
        | nil => rfl
        | cons c t =>
          rw [hrev] at hrh
          have hc : c = '/' := by
            simpa using hrh
          rw [List.takeWhile_cons, hc]
          simp
    rw [hta, List.append_nil, List.reverse_reverse]
  · rw [if_neg h2]
    unfold basename
    rw [String.data_append, String.data_append]
    have hmid : ((a.data ++ "/".data) ++ b.data).reverse =
        b.data.reverse ++ ('/' :: a.data.reverse) := by
      rw [List.reverse_append, List.reverse_append]
      rfl
    rw [hmid, takeWhile_append_of_all _ _ _ hball]
    have hsl : List.takeWhile (fun c => c != '/') ('/' :: a.data.reverse) = [] := by
      rw [List.takeWhile_cons]
      simp
    rw [hsl, List.append_nil, List.reverse_reverse]

theorem data_eq_of_string_eq {a b : String} (h : a.data = b.data) : a = b := by
  cases a with
  | mk d =>
    cases b with
    | mk e =>
      have hde : d = e := h
      rw [hde]

/-- C10: whenever `get_next_file` returns a path, that path is the directory
of the input joined with a listing entry whose extension is supported and
whose name is strictly lexicographically greater than the input's name; in
particular the result's base name differs from the input's, so the result is
never the input path itself.  The hypotheses state what `os.listdir`
guarantees: entries are unique, nonempty and contain no separator. -/
theorem get_next_file_advances (entries : List String) (video_path q : String)
    (hnd : entries.Nodup)
    (hent : ∀ f ∈ entries, f ≠ "" ∧ '/' ∉ f.data)
    (hq : get_next_file (some entries) video_path = some q) :
    ∃ name, name ∈ entries ∧
      lowerStr (splitext_ext name) ∈ extensions ∧
      (basename video_path).data < name.data ∧
      q = pjoin (dirname video_path) name ∧
      basename q = name ∧
      q ≠ video_path := by
  unfold get_next_file at hq
  by_cases hvp : video_path = ""
  · rw [if_pos hvp] at hq
    exact absurd hq (by simp)
  rw [if_neg hvp] at hq
  dsimp only at hq
  by_cases hmem : basename video_path ∈ (pySorted entries).filter isVideoFile
  swap
  · rw [if_neg hmem] at hq
    exact absurd hq (by simp)
  rw [if_pos hmem] at hq
  by_cases hlt : ((pySorted entries).filter isVideoFile).indexOf
      (basename video_path) + 1 < ((pySorted entries).filter isVideoFile).length
  swap
  · rw [dif_neg hlt] at hq
    exact absurd hq (by simp)
  rw [dif_pos hlt] at hq
  set files := (pySorted entries).filter isVideoFile with hfiles
  set idx := files.indexOf (basename video_path) with hidx
  set name := files.get ⟨idx + 1, hlt⟩ with hname
  have hqeq : q = pjoin (dirname video_path) name := (Option.some.inj hq).symm
  have hname_mem : name ∈ files := List.get_mem files _ _
  have hmf := List.mem_filter.mp hname_mem
  have hname_entries : name ∈ entries :=
    (List.perm_insertionSort strLe entries).mem_iff.mp hmf.1
  have hext : lowerStr (splitext_ext name) ∈ extensions := by
    have h2 := hmf.2
    unfold isVideoFile at h2
    exact List.elem_iff.mp h2
  have hsorted : List.Sorted strLe files :=
    (List.sorted_insertionSort strLe entries).filter isVideoFile
  have hnodupf : files.Nodup :=
    List.Nodup.filter _ ((List.perm_insertionSort strLe entries).symm.nodup hnd)
  have hidx_lt : idx < files.length :=
    Nat.lt_of_succ_lt hlt
  have hget_idx : files.get ⟨idx, hidx_lt⟩ = basename video_path :=
    List.indexOf_get (List.indexOf_lt_length.mpr hmem)
  have hle : strLe (files.get ⟨idx, hidx_lt⟩) (files.get ⟨idx + 1, hlt⟩) :=
    List.pairwise_iff_get.mp hsorted ⟨idx, hidx_lt⟩ ⟨idx + 1, hlt⟩
      (by simp [Fin.lt_def])
  have hne2 : files.get ⟨idx, hidx_lt⟩ ≠ files.get ⟨idx + 1, hlt⟩ := by
    intro heq
    have := (hnodupf.get_inj_iff).mp heq
    simp only [Fin.mk.injEq] at this
    omega
  have hstrict : (basename video_path).data < name.data := by
    rw [← hget_idx]
    refine lt_of_le_of_ne hle ?_
    intro hdata
    exact hne2 (data_eq_of_string_eq hdata)
  have hbq : basename q = name := by
    rw [hqeq]
    exact basename_pjoin (dirname video_path) name
      (hent name hname_entries).2
  refine ⟨name, hname_entries, hext, hstrict, hqeq, hbq, ?_⟩
  intro heqp
  rw [heqp] at hbq
  rw [hbq] at hstrict
  exact lt_irrefl _ hstrict

/-- C10 witness: the listing `["a.mp4", "b.mkv", "c.mov"]` at `/vids/b.mkv`
advances to `/vids/c.mov`. -/
theorem get_next_file_advances_witness :
    (["a.mp4", "b.mkv", "c.mov"].Nodup ∧
     (∀ f ∈ ["a.mp4", "b.mkv", "c.mov"], f ≠ "" ∧ '/' ∉ f.data) ∧
     get_next_file (some ["a.mp4", "b.mkv", "c.mov"]) "/vids/b.mkv" =
       some "/vids/c.mov") ∧
    (∃ name, name ∈ ["a.mp4", "b.mkv", "c.mov"] ∧
      lowerStr (splitext_ext name) ∈ extensions ∧
      (basename "/vids/b.mkv").data < name.data ∧
      "/vids/c.mov" = pjoin (dirname "/vids/b.mkv") name ∧
      basename "/vids/c.mov" = name ∧
      "/vids/c.mov" ≠ "/vids/b.mkv") :=
  ⟨⟨by decide, by decide, by decide⟩,
    get_next_file_advances ["a.mp4", "b.mkv", "c.mov"] "/vids/b.mkv"
      "/vids/c.mov" (by decide) (by decide) (by decide)⟩

/-! ## overwrite_image (claim C6) -/

/-- C6: whatever the reason — missing file, undecodable bytes, or a failing
write — a failing run of the image executor reports the failure through a
returned outcome (the `except` handler; nothing is fatal) and leaves the
stored files exactly as they were: the only write happens after a successful
crop, as the last step. -/
theorem overwrite_image_fail_keeps_fs (fs : ImgFS) (image_path : String)
    (x y w h : ℤ) (saveFails : Bool) (msg : String)
    (hfail : (overwrite_image fs image_path x y w h saveFails).2 =
      ImageOutcome.failure msg) :
    (overwrite_image fs image_path x y w h saveFails).1 = fs := by
  unfold overwrite_image at hfail ⊢
  cases hl : imgLookup fs image_path with
  | none => rfl
  | some v =>
    rw [hl] at hfail
    cases v with
    | none => rfl
    | some img =>
      dsimp only at hfail ⊢
      by_cases hs : saveFails
      · rw [if_pos hs]
      · rw [if_neg hs] at hfail
        exact absurd hfail (by simp)

/-- C6 witness: a path holding undecodable bytes fails and leaves the store
unchanged. -/
theorem overwrite_image_fail_keeps_fs_witness :
    (overwrite_image [("img.png", none)] "img.png" 100 50 512 512 false).2 =
      ImageOutcome.failure (saveErrorMsg "cannot identify image") ∧
    (overwrite_image [("img.png", none)] "img.png" 100 50 512 512 false).1 =
      [("img.png", none)] :=
  ⟨rfl, overwrite_image_fail_keeps_fs [("img.png", none)] "img.png"
    100 50 512 512 false (saveErrorMsg "cannot identify image") rfl⟩

end Cropper
